import Mathlib

/-!
# A shallow embedding of the xgfone/klog logging library

This file embeds, in Lean 4, the parts of the `klog` structured logging
library that the verified properties below are about.  The repository mixes
several historical versions of the library; each embedded definition names in
its doc comment the source file (and, where the repository holds several
versions of one file, the version) it is translated from.

Machine integers (`Level int32`, `int`) are modelled by `Int`; the values that
occur stay far below 2^31, so no wrap-around modelling is needed.  Go's
`interface{}` payloads are modelled by an opaque `String` payload; fallible
or panicking code returns `Except`; the side effects of the emission pipeline
(pool traffic, hook evaluation, lazy-value resolution, writes reaching the
Writer) are modelled by explicit state passing over an event-recording state.
-/

namespace Klog

/-! ## Levels (src/level.go) -/

/-- `Level` from src/level.go: `type Level int32`.  The values in use are tiny,
so plain `Int` is a faithful model. -/
abbrev Level := Int

/-- `LvlTrace Level = iota * 10` (src/level.go line 25). -/
def LvlTrace : Level := 0

/-- `LvlDebug` (src/level.go, `iota * 10`). -/
def LvlDebug : Level := 10

/-- `LvlInfo` (src/level.go, `iota * 10`). -/
def LvlInfo : Level := 20

/-- `LvlWarn` (src/level.go, `iota * 10`). -/
def LvlWarn : Level := 30

/-- `LvlError` (src/level.go, `iota * 10`). -/
def LvlError : Level := 40

/-- `LvlPanic` (src/level.go, `iota * 10`). -/
def LvlPanic : Level := 50

/-- `LvlFatal` (src/level.go, `iota * 10`). -/
def LvlFatal : Level := 60

/-- The predefined name table `Levels` (src/level.go lines 35-43).  Go's
`map[Level]string` with distinct keys and distinct values is modelled by an
association list. -/
def Levels : List (Level × String) :=
  [(LvlTrace, "TRACE"), (LvlDebug, "DEBUG"), (LvlInfo, "INFO"),
   (LvlWarn, "WARN"), (LvlError, "ERROR"), (LvlPanic, "PANIC"),
   (LvlFatal, "FATAL")]

/-- `Level.String` (src/level.go lines 48-50): `return Levels[l]`; a map read
of a missing key yields the zero value `""`. -/
def levelString (l : Level) : String :=
  ((Levels.find? (fun p => p.1 == l)).map Prod.snd).getD ""

/-- `Level.MarshalJSON` (src/level.go lines 59-61):
`return []byte(quote + l.String() + quote), nil`. -/
def levelMarshalJSON (l : Level) : String :=
  "\"" ++ levelString l ++ "\""

/-- Go's `strings.ToUpper`, modelled character-wise (`Char.toUpper` agrees
with Go's mapping on the ASCII names involved). -/
def goToUpper (s : String) : String :=
  ⟨s.data.map Char.toUpper⟩

/-- The level found by one pass of `for k, v := range Levels { if v == name }`
(src/level.go).  Go's map iteration order is unspecified, but the default
table has pairwise distinct names, so "some matching key" and "the first
matching entry of the association list" coincide. -/
def findLevelByName (name : String) : Option Level :=
  (Levels.find? (fun p => p.2 == name)).map Prod.fst

/-- `NameToLevel` from src/level.go lines 66-81: an exact-name pass over the
table, then a pass with the name upper-cased, then
`panic(fmt.Errorf("unknown level name '%s'", name))` — modelled by
`Except.error`.  This variant takes no strict/default flag. -/
def NameToLevel (name : String) : Except String Level :=
  match findLevelByName name with
  | some l => .ok l
  | none =>
    match findLevelByName (goToUpper name) with
    | some l => .ok l
    | none => .error ("unknown level name '" ++ name ++ "'")

/-! ## Levels, later v2 revision (src/unnamed/part_011, second document) -/

/-- `LvlTrace Level = iota * 100` (src/unnamed/part_011 lines 146-154). -/
def LvlTraceB : Level := 0

/-- `LvlDebug` of the `iota * 100` table (src/unnamed/part_011). -/
def LvlDebugB : Level := 100

/-- `LvlInfo` of the `iota * 100` table (src/unnamed/part_011). -/
def LvlInfoB : Level := 200

/-- `LvlWarn` of the `iota * 100` table (src/unnamed/part_011). -/
def LvlWarnB : Level := 300

/-- `LvlError` of the `iota * 100` table (src/unnamed/part_011). -/
def LvlErrorB : Level := 400

/-- `LvlPanic` of the `iota * 100` table (src/unnamed/part_011). -/
def LvlPanicB : Level := 500

/-- `LvlFatal` of the `iota * 100` table (src/unnamed/part_011). -/
def LvlFatalB : Level := 600

/-- The name table of the `iota * 100` revision (src/unnamed/part_011
lines 157-165). -/
def LevelsB : List (Level × String) :=
  [(LvlTraceB, "TRACE"), (LvlDebugB, "DEBUG"), (LvlInfoB, "INFO"),
   (LvlWarnB, "WARN"), (LvlErrorB, "ERROR"), (LvlPanicB, "PANIC"),
   (LvlFatalB, "FATAL")]

/-- One lookup pass over `LevelsB` by name, as in `findLevelByName`. -/
def findLevelByNameB (name : String) : Option Level :=
  (LevelsB.find? (fun p => p.2 == name)).map Prod.fst

/-- `NameToLevel` from src/unnamed/part_011 lines 188-207: an exact-name pass,
then an upper-cased pass, then — only when the optional `defaultPanic`
argument is given as true — `panic` (modelled by `Except.error`); otherwise
the fallback `LvlInfo` is returned.  `strict` models `defaultPanic[0]`
(with `false` for an absent argument). -/
def NameToLevelB (name : String) (strict : Bool) : Except String Level :=
  match findLevelByNameB name with
  | some l => .ok l
  | none =>
    match findLevelByNameB (goToUpper name) with
    | some l => .ok l
    | none =>
      if strict then .error ("unknown level name '" ++ name ++ "'")
      else .ok LvlInfoB

/-! ## The key-value emission pipeline (src/log.go, src/logger.go, src/hook.go)

The `Logger`/`Log`/`LLog` pipeline of src/log.go and src/logger.go.  Side
effects — field-slice pool traffic (`fieldPool`), builder pool traffic
(`builderPool`), hook evaluation, lazy-value resolution and the bytes that
reach the configured `Writer` — are recorded in an explicit `EmitState`
threaded through the functions.  The `Writer` itself is modelled by the
`writes` event list of that state (every claim below observes only what
reaches the writer, never a particular writer implementation). -/

/-- The record data a lazy resolver may read (a `Record` without its `Fields`;
the resolvers of src/valuer.go read only `Depth`, and dropping the field list
from the resolver's argument keeps the value type strictly positive). -/
structure RecordMeta where
  msg : String
  time : Nat
  name : String
  depth : Int
  level : Level

/-- A `Field` value (`Value interface{}` of the src/logger.go `Field` struct).
`plain` stands for any non-function payload; `valuer` for a `Valuer`
(src/valuer.go line 26) and `funcRecord` for a raw `func(Record) interface{}`
— the two deferred kinds that `emitLog` (src/log.go lines 181-188) resolves.
Each deferred kind carries an identifier so that the model can record which
function was called. -/
inductive FValue where
  | plain (s : String)
  | valuer (id : Nat) (f : RecordMeta → String)
  | funcRecord (id : Nat) (f : RecordMeta → String)

/-- `Field` from src/logger.go lines 30-33. -/
structure Field where
  key : String
  value : FValue

/-- A `Hook` (src/hook.go line 21) together with an identifier used to record
its evaluations. -/
structure Hook where
  id : Nat
  run : String → Level → Bool

/-- `DisableLogger(names...)` (src/hook.go lines 24-33): the returned hook
reports false exactly when the logger's name is one of `names`. -/
def DisableLogger (hid : Nat) (names : List String) : Hook :=
  ⟨hid, fun name _ => !(names.contains name)⟩

/-- `EnableLogger(names...)` (src/hook.go lines 36-45): the returned hook
reports true exactly when the logger's name is one of `names`. -/
def EnableLogger (hid : Nat) (names : List String) : Hook :=
  ⟨hid, fun name _ => names.contains name⟩

/-- `Record` from src/log.go lines 40-47 (`Time` as an abstract tick). -/
structure Record where
  msg : String
  time : Nat
  name : String
  depth : Int
  level : Level
  fields : List Field

/-- `Logger` from src/logger.go lines 41-49.  The `writer` member is modelled
by the `writes` trace of `EmitState`; the `encoder` writes its bytes into a
pooled `Builder`, modelled as the returned `String`. -/
structure Logger where
  name : String
  depth : Int
  level : Level
  encoder : Record → String
  fields : List Field
  hooks : List Hook

/-- `Logger.IsEnabled` (src/logger.go lines 114-116): `lvl >= l.level`. -/
def Logger.IsEnabled (l : Logger) (lvl : Level) : Bool :=
  decide (l.level ≤ lvl)

/-- The event-recording state threaded through the emission pipeline.
`poolFree` is the number of free slices sitting in `fieldPool`;
`acquired`/`returned` count `fieldPool.Get`/`fieldPool.Put` calls;
`bAcquired`/`bReturned` likewise for `builderPool`; `hookCalls` and
`resolverCalls` record hook evaluations and lazy-value resolutions in order;
`writes` records each `writer.Write(level, bs)` as `(level, len bs)`;
`now` is the abstract clock read by `time.Now()`. -/
structure EmitState where
  poolFree : Nat
  acquired : Nat
  returned : Nat
  bAcquired : Nat
  bReturned : Nat
  hookCalls : List Nat
  resolverCalls : List Nat
  writes : List (Level × Nat)
  now : Nat

/-- `fieldPool.Get()` (a `sync.Pool`): takes a free slice if one is available,
otherwise the pool's `New` allocates a fresh one; either way one more slice is
outstanding. -/
def poolAcquire (s : EmitState) : EmitState :=
  { s with poolFree := s.poolFree - 1, acquired := s.acquired + 1 }

/-- `fieldPool.Put(fields[:0])`: the slice goes back into the free list. -/
def poolRelease (s : EmitState) : EmitState :=
  { s with poolFree := s.poolFree + 1, returned := s.returned + 1 }

/-- The hook loop of `newLog` (src/log.go lines 59-64) and of `LLog.emit`
(src/log.go lines 215-220): every hook is evaluated — the loop never breaks —
and `ok` ends up false as soon as any one of them reported false. -/
def runHooks (hooks : List Hook) (name : String) (lvl : Level)
    (s : EmitState) : Bool × EmitState :=
  hooks.foldl
    (fun acc h =>
      (acc.1 && h.run name lvl,
       { acc.2 with hookCalls := acc.2.hookCalls ++ [h.id] }))
    (true, s)

/-- `Log` from src/log.go lines 50-56. -/
structure Log where
  fields : List Field
  logger : Logger
  level : Level
  depth : Int
  ok : Bool

/-- `newLog` (src/log.go lines 58-74): evaluate every hook, then the level
gate; only when the gate is open is a pooled field slice acquired and filled
with the logger's context fields. -/
def newLog (logger : Logger) (level : Level) (depth : Int)
    (s : EmitState) : Log × EmitState :=
  let hs := runHooks logger.hooks logger.name level s
  let ok := hs.1 && logger.IsEnabled level
  if ok then (⟨logger.fields, logger, level, depth, ok⟩, poolAcquire hs.2)
  else (⟨[], logger, level, depth, ok⟩, hs.2)

/-- `Log.F` (src/log.go lines 103-108): appends only when the log is live. -/
def Log.F (l : Log) (fs : List Field) : Log :=
  if l.ok then { l with fields := l.fields ++ fs } else l

/-- A chain of `Log.F` calls, one per batch. -/
def Log.chainF (l : Log) (batches : List (List Field)) : Log :=
  batches.foldl Log.F l

/-- What an emission attempt ended in.  `suppressed` is the silent early
return of a gated `Msg`/`emit`; `exited` is src/log.go's `exit(1)` (the
helper itself is defined outside the corpus); `exitedRan` is the v2-later
`emitLog` (embedded in src/logger_test.go) that runs the registered cleaners,
in order and skipping nil entries, before `os.Exit(1)`; `panicked` carries
the panic payload. -/
inductive Outcome where
  | suppressed
  | normal
  | exited
  | exitedRan (cleanersRun : List Nat)
  | panicked (r : Record)

/-- One resolution step of the `emitLog` loop (src/log.go lines 181-188):
a `Valuer` or `func(Record) interface{}` value is called once, and the field's
value is overwritten with the result; any other value is left alone.  The
second component records the call (if any). -/
def resolveField (meta : RecordMeta) (f : Field) : Field × List Nat :=
  match f.value with
  | .valuer id g => ({ f with value := .plain (g meta) }, [id])
  | .funcRecord id g => ({ f with value := .plain (g meta) }, [id])
  | .plain _ => (f, [])

/-- The full resolution loop of `emitLog` over the record's fields. -/
def resolveFields (meta : RecordMeta) : List Field → List Field × List Nat
  | [] => ([], [])
  | f :: rest =>
    ((resolveField meta f).1 :: (resolveFields meta rest).1,
     (resolveField meta f).2 ++ (resolveFields meta rest).2)

/-- The identifiers of the deferred-evaluation fields of a list, in order. -/
def lazyIds (fields : List Field) : List Nat :=
  fields.filterMap (fun f =>
    match f.value with
    | .valuer id _ => some id
    | .funcRecord id _ => some id
    | .plain _ => none)

/-- The body of `emitLog` (src/log.go lines 171-196) up to the terminal-level
section, shared verbatim by the v2-later revision embedded in
src/logger_test.go (lines 265-291): build the `Record`, resolve the deferred
fields in place, encode into a pooled builder, hand non-empty bytes to the
writer, and return the field slice and the builder to their pools. -/
def emitCore (logger : Logger) (level : Level) (depth : Int) (msg : String)
    (fields : List Field) (s : EmitState) : Record × EmitState :=
  let meta : RecordMeta :=
    { msg := msg, time := s.now, name := logger.name,
      depth := depth + 3, level := level }
  let rc := resolveFields meta fields
  let record : Record :=
    { msg := msg, time := s.now, name := logger.name,
      depth := depth + 3, level := level, fields := rc.1 }
  let s := { s with resolverCalls := s.resolverCalls ++ rc.2,
                    bAcquired := s.bAcquired + 1 }
  let bs := logger.encoder record
  let s :=
    if bs.length > 0 then { s with writes := s.writes ++ [(level, bs.length)] }
    else s
  let s := poolRelease s
  let s := { s with bReturned := s.bReturned + 1 }
  (record, s)

/-- `emitLog` (src/log.go lines 171-206): the shared core, then the terminal
section — `exit(1)` at or above `LvlFatal`, else a panic whose payload is the
record with `Fields` cleared to nil at or above `LvlPanic`. -/
def emitLog (logger : Logger) (level : Level) (depth : Int) (msg : String)
    (fields : List Field) (s : EmitState) : Outcome × EmitState :=
  let rs := emitCore logger level depth msg fields s
  if LvlFatal ≤ level then (.exited, rs.2)
  else if LvlPanic ≤ level then (.panicked { rs.1 with fields := [] }, rs.2)
  else (.normal, rs.2)

/-- `Log.Msg` (src/log.go lines 130-148) in its plain-string shape (one
string argument; `fmt.Sprint` on other shapes only changes the message text):
an inert log returns immediately, a live one flushes through `emitLog`. -/
def Log.Msg (l : Log) (msg : String) (s : EmitState) : Outcome × EmitState :=
  if l.ok then emitLog l.logger l.level l.depth msg l.fields s
  else (.suppressed, s)

/-- The whole `Log` call shape: `newLog`, a chain of `F` calls, then `Msg`. -/
def logAttempt (logger : Logger) (level : Level) (depth : Int)
    (batches : List (List Field)) (msg : String) (s : EmitState) :
    Outcome × EmitState :=
  let ls := newLog logger level depth s
  (ls.1.chainF batches).Msg msg ls.2

/-- `LLog` from src/log.go lines 233-237. -/
structure LLog where
  fields : List Field
  logger : Logger
  depth : Int

/-- `newLLog` (src/log.go lines 239-243): a pooled field slice is acquired
unconditionally — before any gate runs — and filled with the context fields
and the given fields. -/
def newLLog (logger : Logger) (depth : Int) (fields : List Field)
    (s : EmitState) : LLog × EmitState :=
  let s := poolAcquire s
  (⟨logger.fields ++ fields, logger, depth⟩, s)

/-- `LLog.F` (src/log.go lines 275-278). -/
def LLog.F (l : LLog) (fs : List Field) : LLog :=
  { l with fields := l.fields ++ fs }

/-- A chain of `LLog.F` calls, one per batch. -/
def LLog.chainF (l : LLog) (batches : List (List Field)) : LLog :=
  batches.foldl LLog.F l

/-- `LLog.emit` (src/log.go lines 210-230) in its plain-message shape: the
level gate first, then every hook, then the flush through `emitLog`.  Both
early returns drop the `LLog` — and with it the pooled slice acquired in
`newLLog` — without returning anything to the pool. -/
def LLog.emit (l : LLog) (level : Level) (msg : String)
    (s : EmitState) : Outcome × EmitState :=
  if !(l.logger.IsEnabled level) then (.suppressed, s)
  else
    let hs := runHooks l.logger.hooks l.logger.name level s
    if !hs.1 then (.suppressed, hs.2)
    else emitLog l.logger level l.depth msg l.fields hs.2

/-- The whole fluent `LLog` call shape (`logger.F(...).F(...).Levelf(...)`):
`newLLog`, a chain of `F` calls, then the levelled flush. -/
def llogAttempt (logger : Logger) (level : Level) (depth : Int)
    (first : List Field) (batches : List (List Field)) (msg : String)
    (s : EmitState) : Outcome × EmitState :=
  let ls := newLLog logger depth first s
  (ls.1.chainF batches).emit level msg ls.2

/-- The gate of the pipeline: every hook passes and the level is enabled. -/
def gateOpen (logger : Logger) (level : Level) : Bool :=
  logger.hooks.all (fun h => h.run logger.name level) && logger.IsEnabled level

/-- `emitLog` of the v2-later revision (embedded in src/logger_test.go,
lines 265-302): the same core, then — at or above `LvlFatal` — the registered
cleaners are run in registration order (nil entries skipped) before
`os.Exit(1)`; else the `LvlPanic` section as in `emitLog`.  The `cleaners`
global is passed explicitly; a cleaner is `none` (a nil entry) or `some id`.
That revision uses the `iota * 100` level table. -/
def emitLogB (cleaners : List (Option Nat)) (logger : Logger) (level : Level)
    (depth : Int) (msg : String) (fields : List Field) (s : EmitState) :
    Outcome × EmitState :=
  let rs := emitCore logger level depth msg fields s
  if LvlFatalB ≤ level then (.exitedRan (cleaners.filterMap id), rs.2)
  else if LvlPanicB ≤ level then (.panicked { rs.1 with fields := [] }, rs.2)
  else (.normal, rs.2)

/-! ## The ExtLogger pipeline (src/logger_ext.go, src/unnamed/part_003) -/

/-- `Record` of the ExtLogger revision (ctxs and fields separated). -/
structure RecordX where
  name : String
  depth : Int
  lvl : Level
  msg : String
  ctxs : List Field
  fields : List Field

/-- What an `ExtLogger.Log` call ended in: the gated early return, a normal
return, or `callOnExit(); os.Exit(1)` with the identifiers of the exit
functions that were run, in registration order (nil entries skipped, per
src/unnamed/part_003 lines 25-31). -/
inductive OutcomeX where
  | suppressed
  | normal
  | exited (cleanersRun : List Nat)
deriving DecidableEq, Repr

/-- `ExtLogger` (src/logger_ext.go lines 28-34).  Its `Encoder` both encodes
and owns the writer; it is modelled as the encoding function, with the bytes
it produces returned in the outcome's trace below. -/
structure ExtLogger where
  name : String
  ctxs : List Field
  depth : Int
  level : Level
  encoder : RecordX → String

/-- `ExtLogger.Log` (src/logger_ext.go lines 120-143): gate on
`lvl < l.Level`, build the record with depth `l.Depth + 1 + fixDepth(depth)`
(`fixDepth` is the identity, line 25), encode, and then — only when
`lvl == LvlFatal` exactly — run the registered exit functions and exit.
There is no panic-level section in this revision.  `callOnExit` is the
`CallOnExit` global (src/unnamed/part_003), `none` entries being nil
functions.  The second component is the encoded bytes handed to the
encoder's writer (empty when the gate closed). -/
def ExtLogger.Log (l : ExtLogger) (callOnExit : List (Option Nat))
    (lvl : Level) (depth : Int) (msg : String) (fields : List Field) :
    OutcomeX × Nat :=
  if lvl < l.level then (.suppressed, 0)
  else
    let r : RecordX :=
      { name := l.name, depth := l.depth + 1 + depth, lvl := lvl,
        msg := msg, ctxs := l.ctxs, fields := fields }
    let bs := l.encoder r
    if lvl == LvlFatalB then (.exited (callOnExit.filterMap id), bs.length)
    else (.normal, bs.length)

/-! ## The text encoder and the `New` defaults (src/encoder.go, src/logger.go) -/

/-- How `Builder.AppendAny` renders one field value in `TextEncoder`
(src/encoder.go lines 53-64): a plain payload is written as is; a function
value is an unknown type, for which the encoder writes its error marker. -/
def fvalueText : FValue → String
  | .plain s => s
  | .valuer _ _ => "<klog.TextEncoder:Error: unknown type>"
  | .funcRecord _ _ => "<klog.TextEncoder:Error: unknown type>"

/-- `TextEncoder` (src/encoder.go lines 36-71): `t=<time>`, then
` logger=<name>` when the name is non-empty, then ` lvl=<level>`, one
` <key>=<value>` per field, and ` msg=<msg>` with a trailing newline. -/
def textEncoder (r : Record) : String :=
  "t=" ++ toString r.time ++
  (if r.name ≠ "" then " logger=" ++ r.name else "") ++
  " lvl=" ++ levelString r.level ++
  String.join (r.fields.map (fun f => " " ++ f.key ++ "=" ++ fvalueText f.value)) ++
  " msg=" ++ r.msg ++ "\n"

/-- `New` (src/logger.go lines 54-60): a logger over the default stdout
writer with `level: LvlDebug`, `encoder: TextEncoder(...)`, and the zero
values — name `""`, depth 0, no context fields, no hooks. -/
def NewLogger : Logger :=
  { name := "", depth := 0, level := LvlDebug, encoder := textEncoder,
    fields := [], hooks := [] }

/-- The text encoder of the ExtLogger revision, as configured by its `New`
(src/logger_ext.go lines 38-43); only its identity matters to the claims. -/
def textEncoderX (r : RecordX) : String :=
  "t=0 lvl=" ++ levelString r.lvl ++ " msg=" ++ r.msg ++ "\n"

/-- `New(name)` of the ExtLogger revision (src/logger_ext.go lines 38-43):
`&ExtLogger{Name: name, Level: LvlDebug, Encoder: e}` with the text encoder;
`Ctxs` and `Depth` are the zero values. -/
def NewExtLogger (name : String) : ExtLogger :=
  { name := name, ctxs := [], depth := 0, level := LvlDebug,
    encoder := textEncoderX }

/-! ## The pooled `FieldBuilder` (src/field.go) -/

/-- A `[]Field` slice as the `FieldBuilder` pools see it: only its length and
capacity matter to the pooling discipline. -/
structure FSlice where
  len : Nat
  cap : Nat
deriving DecidableEq, Repr

/-- The four freelists `fbPool4`/`fbPool8`/`fbPool16`/`fbPool32`
(src/field.go lines 79-82), each a `sync.Pool` of `[]Field` slices whose
`New` makes an empty slice of the class capacity. -/
structure FBPools where
  p4 : List FSlice
  p8 : List FSlice
  p16 : List FSlice
  p32 : List FSlice
deriving DecidableEq, Repr

/-- An empty pool state. -/
def FBPools.empty : FBPools := ⟨[], [], [], []⟩

/-- `sync.Pool.Get` against one freelist: take a pooled slice if there is
one, otherwise allocate `New`'s fresh empty slice of the class capacity. -/
def fbGet (classCap : Nat) : List FSlice → FSlice × List FSlice
  | [] => (⟨0, classCap⟩, [])
  | x :: rest => (x, rest)

/-- `NewFieldBuilder(cap)` (src/field.go lines 90-102): pick the smallest
class pool whose capacity covers the hint — above 16 the 32 pool, above 8 the
16 pool, above 4 the 8 pool, else the 4 pool. -/
def NewFieldBuilder (cap : Int) (st : FBPools) : FSlice × FBPools :=
  if cap > 16 then
    let (fb, p) := fbGet 32 st.p32; (fb, { st with p32 := p })
  else if cap > 8 then
    let (fb, p) := fbGet 16 st.p16; (fb, { st with p16 := p })
  else if cap > 4 then
    let (fb, p) := fbGet 8 st.p8; (fb, { st with p8 := p })
  else
    let (fb, p) := fbGet 4 st.p4; (fb, { st with p4 := p })

/-- One `fb.Field(key, value)` append (src/field.go lines 108-111) as the
pools see it: the length grows by one, and when the capacity is exhausted the
backing slice is reallocated at twice the capacity (Go append growth for
small slices). -/
def FSlice.append1 (fb : FSlice) : FSlice :=
  if fb.len < fb.cap then { fb with len := fb.len + 1 }
  else { len := fb.len + 1, cap := max (2 * fb.cap) (fb.len + 1) }

/-- `FieldBuilder.Release` (src/field.go lines 133-144), exactly as written:
`fb.Reset()` first truncates the length to zero, and then
`cap := len(fb.fields)` classifies the slice by its *length* — which the
reset has just made 0 — so the `> 16` / `> 8` / `> 4` branches are dead and
every released slice is put into `fbPool4`, whatever its capacity. -/
def FieldBuilder.Release (fb : FSlice) (st : FBPools) : FBPools :=
  let fb := { fb with len := 0 }
  let c := fb.len
  if c > 16 then { st with p32 := st.p32 ++ [fb] }
  else if c > 8 then { st with p16 := st.p16 ++ [fb] }
  else if c > 4 then { st with p8 := st.p8 ++ [fb] }
  else { st with p4 := st.p4 ++ [fb] }

/-! ## The v5 field type (src/field.go) and its deferred evaluation -/

/-- A v5 field value (`value interface{}` of the src/field.go `field`
struct): a plain payload, a `func() interface{}`, or a `func() string`.  The
function kinds carry an identifier so calls can be counted. -/
inductive FValue5 where
  | plain (s : String)
  | funcAny (id : Nat) (f : Unit → String)
  | funcStr (id : Nat) (f : Unit → String)

/-- `field` from src/field.go lines 19-22. -/
structure Field5 where
  key : String
  value : FValue5

/-- `field.Value` (src/field.go lines 25-34): a `func() interface{}` or
`func() string` payload is called — the second component records that one
call — and any other payload is returned unchanged. -/
def Field5.Value (f : Field5) : String × List Nat :=
  match f.value with
  | .plain s => (s, [])
  | .funcAny id g => (g (), [id])
  | .funcStr id g => (g (), [id])

/-- The identifiers of the deferred-evaluation fields of a v5 field list. -/
def lazyIds5 (fields : List Field5) : List Nat :=
  fields.filterMap (fun f =>
    match f.value with
    | .funcAny id _ => some id
    | .funcStr id _ => some id
    | .plain _ => none)

/-- Resolve a v5 field list by calling `field.Value` once per field, in
order, collecting the key-value pairs and the recorded calls. -/
def resolveFields5 : List Field5 → List (String × String) × List Nat
  | [] => ([], [])
  | f :: rest =>
    ((f.key, f.Value.1) :: (resolveFields5 rest).1,
     f.Value.2 ++ (resolveFields5 rest).2)

/-- Modelled from the spec: the v5 emission step that consumes a field list
is not under src/ (src/field.go holds only the `field` type, `field.Value`
and the `FieldBuilder` pools); per §4.2 ("if the stored value is a zero-arg
function returning an arbitrary value, call it; if ... returning a string,
call it and box the string") and §4.5 steps 1 and 4 (the gate runs before any
formatting, and resolution is "the single evaluation point", "strictly after
the gate passes"), a gated emission resolves each field exactly once by
calling `field.Value` during encoding, and a filtered one never touches the
fields.  The second component records the resolver calls. -/
def emit5 (minLvl lvl : Level) (fields : List Field5) :
    Option (List (String × String)) × List Nat :=
  if minLvl ≤ lvl then (some (resolveFields5 fields).1, (resolveFields5 fields).2)
  else (none, [])

end Klog

namespace GoSlice

/-!
## Go slice aliasing and the `With*` context derivations

`Logger.WithField` (src/logger.go lines 245-248) grows the derived logger's
context-field slice with a plain Go `append`, and `ExtLogger.Clone` /
`ExtLogger.WithCtx` (src/logger_ext.go lines 69-117) copy the context slice
before appending.  Whether one derivation can corrupt another depends on Go's
slice aliasing, so this section models backing arrays explicitly: a store of
allocated arrays, slices as (array id, length) pairs, and `append` with Go's
in-place-when-capacity-suffices / reallocate-and-double semantics.

Every slice here is produced by appending to `nil`, so it always starts at
offset 0 of its array and its capacity is the array's full size.  Field
payloads are opaque strings.  The capacity growth `growCap` is Go's
`growslice` for small slices (double the capacity, or the required length if
doubling is not enough); for the 32-byte `Field` element the allocator's
size-class rounding is the identity in the range used here.
-/

/-- An allocated backing array; the list length is its capacity and unused
cells hold `""`. -/
abbrev GArr := List String

/-- The allocation store.  Arrays are identified by index and never removed;
an `append` either updates one array in place or allocates a new one at the
end. -/
abbrev GStore := List GArr

/-- A Go slice value: `none` is the nil slice, `some (aid, len)` the first
`len` cells of array `aid`. -/
abbrev GSlice := Option (Nat × Nat)

/-- The length of a slice (`len(s)`). -/
def GSlice.len : GSlice → Nat
  | none => 0
  | some (_, l) => l

/-- The array identifier of a slice, if it has one. -/
def GSlice.aid : GSlice → Option Nat
  | none => none
  | some (a, _) => some a

/-- Array lookup in a store. -/
def nthArr : GStore → Nat → GArr
  | [], _ => []
  | a :: _, 0 => a
  | _ :: rest, n + 1 => nthArr rest n

/-- Replace an array in a store. -/
def updArr : GStore → Nat → GArr → GStore
  | [], _, _ => []
  | _ :: rest, 0, b => b :: rest
  | a :: rest, n + 1, b => a :: updArr rest n b

/-- The capacity of a slice (`cap(s)`): the full size of its array. -/
def gcap (st : GStore) : GSlice → Nat
  | none => 0
  | some (a, _) => (nthArr st a).length

/-- The elements a slice denotes — what a logger emitting its context fields
observes. -/
def gread (st : GStore) : GSlice → List String
  | none => []
  | some (a, l) => (nthArr st a).take l

/-- Write `xs` into an array starting at cell `i`, leaving the rest alone
(writes past the array's end are dropped; the callers below never do that). -/
def setRange : GArr → Nat → List String → GArr
  | [], _, _ => []
  | a :: rest, 0, xs =>
    match xs with
    | [] => a :: rest
    | y :: ys => y :: setRange rest 0 ys
  | a :: rest, i + 1, xs => a :: setRange rest i xs

/-- Go's `growslice` capacity for small slices: double the old capacity, or
the required length when doubling is not enough. -/
def growCap (old need : Nat) : Nat :=
  if need > 2 * old then need else 2 * old

/-- Go `append(s, xs...)`: no-op for no elements; in place when the capacity
covers the new length; otherwise a fresh array of capacity
`growCap cap need`, holding the old elements then `xs`, is allocated at the
end of the store. -/
def gappend (st : GStore) (s : GSlice) (xs : List String) : GStore × GSlice :=
  match xs with
  | [] => (st, s)
  | _ =>
    let need := s.len + xs.length
    match s with
    | some (a, l) =>
      if need ≤ (nthArr st a).length then
        (updArr st a (setRange (nthArr st a) l xs), some (a, need))
      else
        let newarr := (nthArr st a).take l ++ xs ++
          List.replicate (growCap (nthArr st a).length need - need) ""
        (st ++ [newarr], some (st.length, need))
    | none =>
      let newarr := xs ++ List.replicate (growCap 0 need - need) ""
      (st ++ [newarr], some (st.length, need))

/-- A slice is well formed in a store when its array exists and its length is
within the array. -/
def WF (st : GStore) : GSlice → Prop
  | none => True
  | some (a, l) => a < st.length ∧ l ≤ (nthArr st a).length

/-- `Logger.WithField` (src/logger.go lines 245-248), context-fields part:
the derived logger's slice is `append(l.fields, fields...)` — sharing the
parent's backing array whenever its capacity suffices. -/
def withField (st : GStore) (parent : GSlice) (xs : List String) :
    GStore × GSlice :=
  gappend st parent xs

/-- `ExtLogger.Clone` (src/logger_ext.go lines 69-82), context-fields part:
a non-empty context slice is copied by `append([]Field{}, l.Ctxs...)` — an
append to an empty slice, which allocates a fresh array — and an empty one
stays nil. -/
def cloneCtxs (st : GStore) (s : GSlice) : GStore × GSlice :=
  if s.len ≠ 0 then gappend st none (gread st s) else (st, none)

/-- `ExtLogger.WithCtx` (src/logger_ext.go lines 113-117): clone, then
`ll.Ctxs = append(ll.Ctxs, ctxs...)` on the clone's freshly copied slice. -/
def withCtx (st : GStore) (parent : GSlice) (xs : List String) :
    GStore × GSlice :=
  gappend (cloneCtxs st parent).1 (cloneCtxs st parent).2 xs

end GoSlice

namespace Klog

/-! ## Theorems -/

/-- C7: for the predefined levels, the textual severity order
trace < debug < info < warn < error < panic < fatal corresponds to strictly
increasing priority values, and `Logger.IsEnabled lvl` returns true exactly
when `lvl` is at or above the logger's configured minimum level — so a record
strictly below the threshold is rejected. -/
theorem levels_ordered_and_is_enabled_gate :
    (LvlTrace < LvlDebug ∧ LvlDebug < LvlInfo ∧ LvlInfo < LvlWarn ∧
     LvlWarn < LvlError ∧ LvlError < LvlPanic ∧ LvlPanic < LvlFatal) ∧
    ∀ (l : Logger) (lvl : Level),
      (l.IsEnabled lvl = true ↔ l.level ≤ lvl) ∧
      (l.IsEnabled lvl = false ↔ lvl < l.level) := by
  refine ⟨by decide, fun l lvl => ⟨?_, ?_⟩⟩
  · simp [Logger.IsEnabled]
  · simp [Logger.IsEnabled]

/-- C10: a `Level` that is not a key of the registered `Levels` table has
`String()` equal to the empty string, and `MarshalJSON()` yields exactly the
two-byte encoding of an empty JSON string, rather than failing. -/
theorem unregistered_level_string_empty (l : Level)
    (h : ∀ p ∈ Levels, p.1 ≠ l) :
    levelString l = "" ∧ levelMarshalJSON l = "\"\"" ∧
    (levelMarshalJSON l).length = 2 := by
  have hf : Levels.find? (fun p => p.1 == l) = none := by
    rw [List.find?_eq_none]
    intro p hp
    simpa using h p hp
  refine ⟨?_, ?_, ?_⟩
  · simp [levelString, hf]
  · simp [levelMarshalJSON, levelString, hf]
  · simp only [levelMarshalJSON, levelString, hf, Option.map_none]
    rfl

/-- Witness for C10 at the unregistered level 5. -/
theorem unregistered_level_string_empty_witness :
    levelString 5 = "" ∧ levelMarshalJSON 5 = "\"\"" ∧
    (levelMarshalJSON 5).length = 2 :=
  unregistered_level_string_empty 5 (by decide)

/-- C9, counterexample: the claim says a logger freshly built by `New` has
the most verbose predefined level as its minimum level, but `New` uses
`LvlDebug` while the predefined `LvlTrace` is strictly more verbose — a fresh
logger rejects a TRACE record. -/
theorem new_logger_not_most_verbose :
    LvlTrace ∈ Levels.map Prod.fst ∧ LvlTrace < NewLogger.level ∧
    NewLogger.IsEnabled LvlTrace = false := by
  refine ⟨by decide, by decide, ?_⟩
  rfl

/-- C9, amended: a logger freshly constructed by `New` (either the
src/logger.go `New` or the ExtLogger `New`) has minimum level `LvlDebug` —
the second-most verbose predefined level, one step above `LvlTrace` — the
text encoder as its encoder, and caller depth 0 (with empty name, context
fields and hooks where the revision has them). -/
theorem new_logger_defaults (n : String) :
    NewLogger.level = LvlDebug ∧ NewLogger.encoder = textEncoder ∧
    NewLogger.depth = 0 ∧ NewLogger.name = "" ∧ NewLogger.fields = [] ∧
    NewLogger.hooks = [] ∧
    (NewExtLogger n).level = LvlDebug ∧ (NewExtLogger n).depth = 0 ∧
    (NewExtLogger n).ctxs = [] ∧ (NewExtLogger n).encoder = textEncoderX ∧
    LvlTrace < LvlDebug :=
  ⟨rfl, rfl, rfl, rfl, rfl, rfl, rfl, rfl, rfl, rfl, by decide⟩

/-- C1: `FieldBuilder.Release` classifies the released slice by
`len(fb.fields)` computed after `fb.Reset()` has truncated the length to 0,
so every released slice — whatever its capacity — is put into `fbPool4`; in
particular a capacity-32 slice acquired via `NewFieldBuilder 17` is released
into `fbPool4` and never reaches `fbPool32`, contradicting the documented
return-to-matching-capacity-class behaviour (the slice's length is still
reset to 0, so that half of the claim does hold). -/
theorem release_always_puts_into_pool4 :
    (∀ (fb : FSlice) (st : FBPools),
      FieldBuilder.Release fb st = { st with p4 := st.p4 ++ [⟨0, fb.cap⟩] }) ∧
    (NewFieldBuilder 17 FBPools.empty).1 = ⟨0, 32⟩ ∧
    FieldBuilder.Release ⟨17, 32⟩ FBPools.empty =
      ⟨[⟨0, 32⟩], [], [], []⟩ :=
  ⟨fun _ _ => rfl, rfl, rfl⟩

/-- C4, counterexample: the claim says an unknown name resolves to a
configured default level unless the caller opts into strict mode, but the
src/level.go `NameToLevel` has no opt-in at all — it fails (panics) on every
unknown name. -/
theorem name_to_level_v2_always_fails_unknown :
    NameToLevel "unknown" = Except.error "unknown level name 'unknown'" := by
  rfl

/-- C4, amended: the `NameToLevel` variant that takes the optional
`defaultPanic` flag (src/unnamed/part_011) behaves as the claim states: the
lookup depends only on the upper-cased name — hence is case-insensitive with
respect to the registered (upper-case) name table — and on a miss it returns
the default `LvlInfo` unless strict mode is requested, in which case it
signals the unknown-level error; the src/level.go variant instead panics on
every unknown name. -/
theorem name_to_level_case_insensitive_default (name : String) (strict : Bool) :
    NameToLevelB name strict =
      match findLevelByNameB (goToUpper name) with
      | some l => Except.ok l
      | none =>
        if strict then Except.error ("unknown level name '" ++ name ++ "'")
        else Except.ok LvlInfoB := by
  unfold NameToLevelB
  cases hf : findLevelByNameB name with
  | none => rfl
  | some l =>
    have hup : goToUpper name = name := by
      unfold findLevelByNameB at hf
      rcases Option.map_eq_some'.mp hf with ⟨p, hfind, -⟩
      have hpv : p.2 = name := by
        have := List.find?_some hfind
        simpa using this
      have hmem := List.mem_of_find?_eq_some hfind
      have hfix : goToUpper p.2 = p.2 := by
        fin_cases hmem <;> decide
      rw [← hpv, hfix]
    rw [hup, hf]

/-! ### Pipeline lemmas -/

/-- The hook loop, for an arbitrary starting accumulator: every hook is
evaluated (in order) and the boolean is the conjunction over the chain. -/
theorem runHooks_foldl (name : String) (lvl : Level) (hooks : List Hook) :
    ∀ (b : Bool) (s : EmitState),
      hooks.foldl
        (fun acc h =>
          (acc.1 && h.run name lvl,
           { acc.2 with hookCalls := acc.2.hookCalls ++ [h.id] }))
        (b, s) =
      (b && hooks.all (fun h => h.run name lvl),
       { s with hookCalls := s.hookCalls ++ hooks.map Hook.id }) := by
  induction hooks with
  | nil => intro b s; simp
  | cons h rest ih =>
    intro b s
    simp only [List.foldl_cons, List.all_cons, List.map_cons]
    rw [ih]
    simp [Bool.and_assoc]

/-- `runHooks` evaluates every hook in registration order and conjoins their
verdicts. -/
theorem runHooks_spec (hooks : List Hook) (name : String) (lvl : Level)
    (s : EmitState) :
    runHooks hooks name lvl s =
      (hooks.all (fun h => h.run name lvl),
       { s with hookCalls := s.hookCalls ++ hooks.map Hook.id }) := by
  unfold runHooks
  rw [runHooks_foldl]
  simp

/-- The resolution loop calls exactly the deferred fields, in order. -/
theorem resolveFields_calls (meta : RecordMeta) (fields : List Field) :
    (resolveFields meta fields).2 = lazyIds fields := by
  induction fields with
  | nil => rfl
  | cons f rest ih =>
    simp only [resolveFields, lazyIds, List.filterMap_cons] at ih ⊢
    cases hv : f.value <;> simp [resolveField, hv, ih]

/-- `emitCore` leaves the hook trace alone. -/
theorem emitCore_hookCalls (logger : Logger) (level : Level) (depth : Int)
    (msg : String) (fields : List Field) (s : EmitState) :
    (emitCore logger level depth msg fields s).2.hookCalls = s.hookCalls := by
  simp [emitCore, poolRelease, apply_ite]

/-- `emitCore` appends one resolver call per deferred field, in order. -/
theorem emitCore_resolverCalls (logger : Logger) (level : Level) (depth : Int)
    (msg : String) (fields : List Field) (s : EmitState) :
    (emitCore logger level depth msg fields s).2.resolverCalls =
      s.resolverCalls ++ lazyIds fields := by
  simp [emitCore, poolRelease, apply_ite, resolveFields_calls]

/-- `emitCore` acquires nothing from the field pool. -/
theorem emitCore_acquired (logger : Logger) (level : Level) (depth : Int)
    (msg : String) (fields : List Field) (s : EmitState) :
    (emitCore logger level depth msg fields s).2.acquired = s.acquired := by
  simp [emitCore, poolRelease, apply_ite]

/-- `emitCore` returns exactly one slice to the field pool. -/
theorem emitCore_returned (logger : Logger) (level : Level) (depth : Int)
    (msg : String) (fields : List Field) (s : EmitState) :
    (emitCore logger level depth msg fields s).2.returned = s.returned + 1 := by
  simp [emitCore, poolRelease, apply_ite]

/-- `emitLog` only adds the terminal action on top of `emitCore`'s state. -/
theorem emitLog_snd (logger : Logger) (level : Level) (depth : Int)
    (msg : String) (fields : List Field) (s : EmitState) :
    (emitLog logger level depth msg fields s).2 =
      (emitCore logger level depth msg fields s).2 := by
  unfold emitLog
  split
  · rfl
  · split <;> rfl

/-- A flush that reached `emitLog` never reports the gated early return. -/
theorem emitLog_fst_ne_suppressed (logger : Logger) (level : Level)
    (depth : Int) (msg : String) (fields : List Field) (s : EmitState) :
    (emitLog logger level depth msg fields s).1 ≠ .suppressed := by
  unfold emitLog
  split
  · simp
  · split <;> simp

/-- A chain of `Log.F` calls on an inert log is the identity. -/
theorem chainF_ok_false (l : Log) (batches : List (List Field))
    (h : l.ok = false) : l.chainF batches = l := by
  induction batches with
  | nil => rfl
  | cons b rest ih => simp [Log.chainF, Log.F, h] at ih ⊢; exact ih

/-- A chain of `Log.F` calls on a live log appends all the batches. -/
theorem chainF_ok_true (l : Log) (batches : List (List Field))
    (h : l.ok = true) :
    l.chainF batches = { l with fields := l.fields ++ batches.flatten } := by
  induction batches generalizing l with
  | nil => simp [Log.chainF]
  | cons b rest ih =>
    have : l.F b = { l with fields := l.fields ++ b } := by simp [Log.F, h]
    simp [Log.chainF] at ih ⊢
    rw [this, ih _ (by simp [h])]
    simp

/-- A chain of `LLog.F` calls appends all the batches and changes nothing
else. -/
theorem llog_chainF (l : LLog) (batches : List (List Field)) :
    l.chainF batches = { l with fields := l.fields ++ batches.flatten } := by
  induction batches generalizing l with
  | nil => simp [LLog.chainF]
  | cons b rest ih =>
    simp [LLog.chainF] at ih ⊢
    rw [ih]
    simp [LLog.F]

/-- `newLog` under a closed gate: inert log, no pool traffic, only the hook
trace grows. -/
theorem newLog_gate_closed (logger : Logger) (level : Level) (depth : Int)
    (s : EmitState) (h : gateOpen logger level = false) :
    newLog logger level depth s =
      (⟨[], logger, level, depth, false⟩,
       { s with hookCalls := s.hookCalls ++ logger.hooks.map Hook.id }) := by
  unfold gateOpen at h
  unfold newLog
  rw [runHooks_spec]
  simp [h]

/-- `newLog` under an open gate: live log seeded with the context fields, one
pooled slice acquired. -/
theorem newLog_gate_open (logger : Logger) (level : Level) (depth : Int)
    (s : EmitState) (h : gateOpen logger level = true) :
    newLog logger level depth s =
      (⟨logger.fields, logger, level, depth, true⟩,
       poolAcquire
         { s with hookCalls := s.hookCalls ++ logger.hooks.map Hook.id }) := by
  unfold gateOpen at h
  unfold newLog
  rw [runHooks_spec]
  simp [h]

/-- The v5 resolution walk calls exactly the deferred fields, in order. -/
theorem resolveFields5_calls (fields : List Field5) :
    (resolveFields5 fields).2 = lazyIds5 fields := by
  induction fields with
  | nil => rfl
  | cons f rest ih =>
    simp only [resolveFields5, lazyIds5, List.filterMap_cons] at ih ⊢
    cases hv : f.value <;> simp [Field5.Value, hv, ih]

/-! ### Claim theorems for the emission pipeline -/

/-- C2, counterexample: the claim says a gate-filtered emission attempt
causes zero net growth in pool-allocated objects in either call shape, with
every pooled field slice acquired for the attempt returned to the pool; but
in the fluent `LLog` shape, `newLLog` acquires a pooled slice before any gate
runs and the filtered `emit` drops it — here a logger at minimum `LvlInfo`
emitting at `LvlDebug` ends the attempt with one slice acquired and none
returned (the free list has shrunk), though indeed zero bytes written. -/
theorem gated_llog_drops_pooled_slice :
    (llogAttempt ⟨"", 0, LvlInfo, textEncoder, [], []⟩ LvlDebug 0 [] [] "x"
        ⟨1, 0, 0, 0, 0, [], [], [], 0⟩).1 = .suppressed ∧
    (llogAttempt ⟨"", 0, LvlInfo, textEncoder, [], []⟩ LvlDebug 0 [] [] "x"
        ⟨1, 0, 0, 0, 0, [], [], [], 0⟩).2.writes = [] ∧
    (llogAttempt ⟨"", 0, LvlInfo, textEncoder, [], []⟩ LvlDebug 0 [] [] "x"
        ⟨1, 0, 0, 0, 0, [], [], [], 0⟩).2.acquired = 1 ∧
    (llogAttempt ⟨"", 0, LvlInfo, textEncoder, [], []⟩ LvlDebug 0 [] [] "x"
        ⟨1, 0, 0, 0, 0, [], [], [], 0⟩).2.returned = 0 ∧
    (llogAttempt ⟨"", 0, LvlInfo, textEncoder, [], []⟩ LvlDebug 0 [] [] "x"
        ⟨1, 0, 0, 0, 0, [], [], [], 0⟩).2.poolFree = 0 :=
  ⟨rfl, rfl, rfl, rfl, rfl⟩

/-- C2, amended: a gate-filtered emission attempt writes zero bytes to the
writer in both call shapes; the `Log` shape (`Msg`/`Msgf`) also causes zero
net pool growth — it acquires nothing when gated, whatever the chained
field-appending calls — while the fluent `LLog` shape acquires exactly one
pooled slice at construction and returns nothing, dropping that slice when
the gate filters the flush. -/
theorem gated_emission_zero_bytes (logger : Logger) (level : Level)
    (depth : Int) (first : List Field) (batches : List (List Field))
    (msg : String) (s : EmitState)
    (h : gateOpen logger level = false) :
    ((logAttempt logger level depth batches msg s).1 = .suppressed ∧
     (logAttempt logger level depth batches msg s).2.writes = s.writes ∧
     (logAttempt logger level depth batches msg s).2.acquired = s.acquired ∧
     (logAttempt logger level depth batches msg s).2.returned = s.returned ∧
     (logAttempt logger level depth batches msg s).2.poolFree = s.poolFree) ∧
    ((llogAttempt logger level depth first batches msg s).1 = .suppressed ∧
     (llogAttempt logger level depth first batches msg s).2.writes = s.writes ∧
     (llogAttempt logger level depth first batches msg s).2.acquired
        = s.acquired + 1 ∧
     (llogAttempt logger level depth first batches msg s).2.returned
        = s.returned) := by
  constructor
  · have hn := newLog_gate_closed logger level depth s h
    simp only [logAttempt, hn]
    rw [chainF_ok_false _ _ rfl]
    simp [Log.Msg]
  · simp only [llogAttempt, newLLog]
    rw [llog_chainF]
    simp only [LLog.emit]
    by_cases he : logger.IsEnabled level = true
    · have hv : logger.hooks.all (fun h => h.run logger.name level) = false := by
        unfold gateOpen at h
        rcases Bool.and_eq_false_iff.mp h with hv | hv
        · exact hv
        · rw [he] at hv; cases hv
      simp [he, runHooks_spec, hv, poolAcquire]
    · rw [Bool.not_eq_true] at he
      simp [he, poolAcquire]

/-- Witness for C2: the `Log` shape of the amended statement at a concrete
gate-closed input (minimum `LvlInfo`, emission at `LvlDebug`). -/
theorem gated_emission_zero_bytes_witness :
    (logAttempt ⟨"", 0, LvlInfo, textEncoder, [], []⟩ LvlDebug 0
        [[⟨"k", .plain "v"⟩]] "x" ⟨1, 0, 0, 0, 0, [], [], [], 0⟩).1
      = .suppressed :=
  (gated_emission_zero_bytes ⟨"", 0, LvlInfo, textEncoder, [], []⟩ LvlDebug 0
    [] [[⟨"k", .plain "v"⟩]] "x" ⟨1, 0, 0, 0, 0, [], [], [], 0⟩ rfl).1.1

/-- C6: a deferred-evaluation field value — a `Valuer`/`func(Record)` in the
src/log.go pipeline, a zero-argument function under src/field.go's
`field.Value` — is called zero times when the gate filters the log and
exactly once per successful emission, at flush time, strictly after the gate
passed, regardless of how many chained builder calls preceded the flush. -/
theorem lazy_resolution_counts (logger : Logger) (level : Level) (depth : Int)
    (first : List Field) (batches : List (List Field)) (msg : String)
    (s : EmitState) :
    (gateOpen logger level = false →
      (logAttempt logger level depth batches msg s).2.resolverCalls
          = s.resolverCalls ∧
      (llogAttempt logger level depth first batches msg s).2.resolverCalls
          = s.resolverCalls) ∧
    (gateOpen logger level = true →
      (newLog logger level depth s).2.resolverCalls = s.resolverCalls ∧
      (logAttempt logger level depth batches msg s).2.resolverCalls
          = s.resolverCalls ++ lazyIds (logger.fields ++ batches.flatten) ∧
      (llogAttempt logger level depth first batches msg s).2.resolverCalls
          = s.resolverCalls
              ++ lazyIds ((logger.fields ++ first) ++ batches.flatten)) ∧
    (∀ (minLvl lvl : Level) (fields5 : List Field5),
      (¬ minLvl ≤ lvl → (emit5 minLvl lvl fields5).2 = []) ∧
      (minLvl ≤ lvl → (emit5 minLvl lvl fields5).2 = lazyIds5 fields5)) := by
  refine ⟨fun h => ⟨?_, ?_⟩, fun h => ⟨?_, ?_, ?_⟩,
    fun minLvl lvl fields5 => ⟨fun h => ?_, fun h => ?_⟩⟩
  · have hn := newLog_gate_closed logger level depth s h
    simp only [logAttempt, hn]
    rw [chainF_ok_false _ _ rfl]
    simp [Log.Msg]
  · simp only [llogAttempt, newLLog]
    rw [llog_chainF]
    simp only [LLog.emit]
    by_cases he : logger.IsEnabled level = true
    · have hv : logger.hooks.all (fun h => h.run logger.name level) = false := by
        unfold gateOpen at h
        rcases Bool.and_eq_false_iff.mp h with hv | hv
        · exact hv
        · rw [he] at hv; cases hv
      simp [he, runHooks_spec, hv, poolAcquire]
    · rw [Bool.not_eq_true] at he
      simp [he, poolAcquire]
  · rw [newLog_gate_open logger level depth s h]
    simp [poolAcquire]
  · have hn := newLog_gate_open logger level depth s h
    simp only [logAttempt, hn]
    rw [chainF_ok_true _ _ rfl]
    simp only [Log.Msg, if_true]
    rw [emitLog_snd, emitCore_resolverCalls]
    simp [poolAcquire]
  · have he : logger.IsEnabled level = true :=
      (Bool.and_eq_true_iff.mp (by unfold gateOpen at h; exact h)).2
    have hv : logger.hooks.all (fun h => h.run logger.name level) = true :=
      (Bool.and_eq_true_iff.mp (by unfold gateOpen at h; exact h)).1
    simp only [llogAttempt, newLLog]
    rw [llog_chainF]
    simp only [LLog.emit, he, Bool.not_true, Bool.false_eq_true, if_false,
      runHooks_spec, hv]
    rw [emitLog_snd, emitCore_resolverCalls]
    simp [poolAcquire]
  · simp [emit5, h]
  · simp [emit5, h, resolveFields5_calls]

/-- Witness for C6: a logger carrying one `Valuer` context field (id 7) and
an open gate resolves it exactly once on the flush. -/
theorem lazy_resolution_counts_witness :
    (logAttempt ⟨"", 0, LvlTrace, textEncoder,
        [⟨"k", .valuer 7 (fun _ => "v")⟩], []⟩ LvlInfo 0 [] "m"
        ⟨1, 0, 0, 0, 0, [], [], [], 0⟩).2.resolverCalls = [7] :=
  ((lazy_resolution_counts ⟨"", 0, LvlTrace, textEncoder,
      [⟨"k", .valuer 7 (fun _ => "v")⟩], []⟩ LvlInfo 0 [] [] "m"
      ⟨1, 0, 0, 0, 0, [], [], [], 0⟩).2.1 rfl).2.1

/-- C8: every emission attempt that reaches the hook chain evaluates all the
hooks in registration order — no hook is skipped after an earlier veto — and
the record is emitted only if every hook returned true: any single false
verdict vetoes (logical AND across the chain, not first-match-wins). -/
theorem hooks_all_evaluated_and_conjoined (logger : Logger) (level : Level)
    (depth : Int) (s : EmitState) :
    ((newLog logger level depth s).2.hookCalls
        = s.hookCalls ++ logger.hooks.map Hook.id ∧
     (newLog logger level depth s).1.ok
        = (logger.hooks.all (fun h => h.run logger.name level)
            && logger.IsEnabled level)) ∧
    (∀ (ll : LLog) (msg : String), ll.logger = logger →
      logger.IsEnabled level = true →
      ((LLog.emit ll level msg s).2.hookCalls
          = s.hookCalls ++ logger.hooks.map Hook.id) ∧
      ((LLog.emit ll level msg s).1 = .suppressed ↔
        logger.hooks.all (fun h => h.run logger.name level) = false)) := by
  constructor
  · simp only [newLog, runHooks_spec]
    by_cases hok :
        (logger.hooks.all (fun h => h.run logger.name level)
          && logger.IsEnabled level) = true
    · simp [hok, poolAcquire]
    · rw [Bool.not_eq_true] at hok
      simp [hok]
  · intro ll msg hl he
    subst hl
    simp only [LLog.emit, he, Bool.not_true, Bool.false_eq_true, if_false,
      runHooks_spec]
    by_cases hv :
        ll.logger.hooks.all (fun h => h.run ll.logger.name level) = true
    · constructor
      · simp only [hv, Bool.not_true, Bool.false_eq_true, if_false]
        rw [emitLog_snd]
        simp [emitCore_hookCalls]
      · simp only [hv, Bool.not_true, Bool.false_eq_true, if_false]
        constructor
        · intro hc
          exact absurd hc (emitLog_fst_ne_suppressed _ _ _ _ _ _)
        · intro hc
          simp at hc
    · rw [Bool.not_eq_true] at hv
      simp [hv]

/-- Witness for C8: a `DisableLogger` hook (id 3) on a logger named "n"
vetoes an enabled-level fluent emission. -/
theorem hooks_all_evaluated_and_conjoined_witness :
    (LLog.emit ⟨[], ⟨"n", 0, LvlTrace, textEncoder, [],
        [DisableLogger 3 ["n"]]⟩, 0⟩ LvlInfo "m"
        ⟨1, 0, 0, 0, 0, [], [], [], 0⟩).1 = .suppressed :=
  (((hooks_all_evaluated_and_conjoined
      ⟨"n", 0, LvlTrace, textEncoder, [], [DisableLogger 3 ["n"]]⟩
      LvlInfo 0 ⟨1, 0, 0, 0, 0, [], [], [], 0⟩).2
    ⟨[], ⟨"n", 0, LvlTrace, textEncoder, [], [DisableLogger 3 ["n"]]⟩, 0⟩
    "m" rfl rfl).2).mpr rfl

/-- C5, counterexample: the claim says any non-filtered emission at or above
the fatal threshold runs the exit hooks and terminates, but `ExtLogger.Log`
tests `lvl == LvlFatal` with equality, so an emission at a level strictly
above the fatal threshold returns normally — no exit hook runs and the
process does not terminate. -/
theorem ext_log_above_fatal_no_exit :
    LvlFatalB ≤ LvlFatalB + 100 ∧
    (ExtLogger.Log ⟨"n", [], 0, LvlTraceB, textEncoderX⟩ [some 0]
        (LvlFatalB + 100) 1 "m" []).1 = .normal :=
  ⟨by decide, rfl⟩

/-- C5, amended: in the `emitLog` pipeline of the v2-later revision, after
encoding and writing, an emission at or above `LvlFatal` runs every
registered cleaner exactly once, in registration order (nil entries
skipped), and then the process terminates; below that but at or above
`LvlPanic` it panics with the emission's record whose `Fields` are cleared
to nil; below `LvlPanic` it returns normally.  In the `ExtLogger.Log`
pipeline the exit hooks and the termination happen only when the level
equals `LvlFatal` exactly (a higher level returns normally), and there is no
panic path. -/
theorem terminal_level_actions :
    (∀ (cleaners : List (Option Nat)) (logger : Logger) (level : Level)
       (depth : Int) (msg : String) (fields : List Field) (s : EmitState),
      (LvlFatalB ≤ level →
        (emitLogB cleaners logger level depth msg fields s).1
          = .exitedRan (cleaners.filterMap id)) ∧
      (LvlPanicB ≤ level → level < LvlFatalB →
        (emitLogB cleaners logger level depth msg fields s).1
          = .panicked
              { (emitCore logger level depth msg fields s).1 with
                  fields := [] }) ∧
      (level < LvlPanicB →
        (emitLogB cleaners logger level depth msg fields s).1 = .normal)) ∧
    (∀ (callOnExit : List (Option Nat)) (l : ExtLogger) (lvl : Level)
       (depth : Int) (msg : String) (fields : List Field),
      l.level ≤ lvl →
        (ExtLogger.Log l callOnExit lvl depth msg fields).1
          = if lvl = LvlFatalB then .exited (callOnExit.filterMap id)
            else .normal) := by
  constructor
  · intro cleaners logger level depth msg fields s
    refine ⟨fun h1 => ?_, fun h2 h3 => ?_, fun h4 => ?_⟩
    · simp [emitLogB, h1]
    · simp only [emitLogB]
      rw [if_neg (not_le.mpr h3), if_pos h2]
    · have hf : ¬ LvlFatalB ≤ level :=
        not_le.mpr (h4.trans (by decide))
      simp only [emitLogB]
      rw [if_neg hf, if_neg (not_le.mpr h4)]
  · intro callOnExit l lvl depth msg fields hle
    simp only [ExtLogger.Log]
    rw [if_neg (not_lt.mpr hle)]
    by_cases hf : lvl = LvlFatalB
    · simp [hf]
    · simp [hf]

/-- Witness for C5: a fatal-level `emitLogB` with cleaners
`[some 0, none, some 1]` runs exactly the non-nil cleaners 0 then 1 and
terminates. -/
theorem terminal_level_actions_witness :
    (emitLogB [some 0, none, some 1] NewLogger LvlFatalB 0 "m" []
        ⟨0, 0, 0, 0, 0, [], [], [], 0⟩).1 = .exitedRan [0, 1] :=
  ((terminal_level_actions.1 [some 0, none, some 1] NewLogger LvlFatalB 0 "m"
      [] ⟨0, 0, 0, 0, 0, [], [], [], 0⟩).1 (by decide))

end Klog

namespace GoSlice

/-! ### Store and array lemmas -/

/-- Updating an array keeps the store's length. -/
theorem length_updArr : ∀ (st : GStore) (n : Nat) (b : GArr),
    (updArr st n b).length = st.length
  | [], _, _ => rfl
  | _ :: rest, 0, _ => rfl
  | a :: rest, n + 1, b => by simp [updArr, length_updArr rest n b]

/-- Reading back an updated slot. -/
theorem nth_updArr_self : ∀ (st : GStore) (n : Nat) (b : GArr),
    n < st.length → nthArr (updArr st n b) n = b
  | [], _, _, h => by cases h
  | _ :: _, 0, _, _ => rfl
  | _ :: rest, n + 1, b, h =>
    nth_updArr_self rest n b (Nat.lt_of_succ_lt_succ h)

/-- Reading any other slot after an update. -/
theorem nth_updArr_ne : ∀ (st : GStore) (n m : Nat) (b : GArr),
    n ≠ m → nthArr (updArr st n b) m = nthArr st m
  | [], _, _, _, _ => rfl
  | _ :: _, 0, 0, _, h => absurd rfl h
  | _ :: _, 0, _ + 1, _, _ => rfl
  | _ :: _, _ + 1, 0, _, _ => rfl
  | _ :: rest, n + 1, m + 1, b, h =>
    nth_updArr_ne rest n m b (fun hnm => h (congrArg Nat.succ hnm))

/-- Appending arrays to the store does not change the existing ones. -/
theorem nth_append_lt : ∀ (st ex : GStore) (n : Nat),
    n < st.length → nthArr (st ++ ex) n = nthArr st n
  | [], _, _, h => by cases h
  | a :: rest, ex, 0, _ => rfl
  | a :: rest, ex, n + 1, h =>
    nth_append_lt rest ex n (Nat.lt_of_succ_lt_succ h)

/-- The freshly appended array sits at index `st.length`. -/
theorem nth_append_self : ∀ (st : GStore) (a : GArr),
    nthArr (st ++ [a]) st.length = a
  | [], _ => rfl
  | _ :: rest, a => nth_append_self rest a

/-- `setRange` keeps the array's size. -/
theorem length_setRange : ∀ (arr : GArr) (i : Nat) (xs : List String),
    (setRange arr i xs).length = arr.length
  | [], _, _ => rfl
  | _ :: _, 0, [] => rfl
  | _ :: rest, 0, y :: ys => by simp [setRange, length_setRange rest 0 ys]
  | _ :: rest, i + 1, xs => by simp [setRange, length_setRange rest i xs]

/-- Cells before the written range are untouched. -/
theorem take_setRange_le : ∀ (arr : GArr) (i : Nat) (xs : List String)
    (t : Nat), t ≤ i → (setRange arr i xs).take t = arr.take t
  | [], _, _, _, _ => rfl
  | _ :: _, 0, [], _, _ => rfl
  | _ :: rest, 0, y :: ys, t, ht => by
    have : t = 0 := Nat.le_zero.mp ht
    simp [this]
  | a :: rest, i + 1, xs, 0, _ => by simp
  | a :: rest, i + 1, xs, t + 1, ht => by
    simp [setRange, List.take_succ_cons,
      take_setRange_le rest i xs t (Nat.le_of_succ_le_succ ht)]

/-- Reading back the whole written prefix: the old cells up to `i`, then
`xs`. -/
theorem take_setRange_full : ∀ (arr : GArr) (i : Nat) (xs : List String),
    i + xs.length ≤ arr.length →
    (setRange arr i xs).take (i + xs.length) = arr.take i ++ xs
  | [], i, xs, h => by
    simp only [List.length_nil, Nat.le_zero] at h
    have hi : i = 0 := by omega
    have hx : xs = [] := List.length_eq_zero.mp (by omega)
    subst hi; subst hx; rfl
  | _ :: _, 0, [], _ => by simp [setRange]
  | a :: rest, 0, x :: xs, h => by
    have ih := take_setRange_full rest 0 xs (by simpa using h)
    simpa [setRange] using ih
  | a :: rest, i + 1, xs, h => by
    have ih := take_setRange_full rest i xs (by
      simpa [Nat.succ_add] using h)
    simp only [setRange, Nat.succ_add, List.take_succ_cons, List.cons_append]
    rw [ih]

/-- A zero-length slice reads as the empty list. -/
theorem gread_len_zero (st : GStore) (s : GSlice) (h : s.len = 0) :
    gread st s = [] := by
  cases s with
  | none => rfl
  | some p =>
    obtain ⟨a, l⟩ := p
    simp [GSlice.len] at h
    simp [gread, h]

/-! ### `append` case equations, correctness, frame and well-formedness -/

/-- `append` from the nil slice: a fresh array at the end of the store. -/
theorem gappend_none_cons (st : GStore) (x : String) (xs : List String) :
    gappend st none (x :: xs) =
      (st ++ [x :: xs ++
         List.replicate (growCap 0 ((x :: xs).length) - (x :: xs).length) ""],
       some (st.length, (x :: xs).length)) := by
  simp [gappend, GSlice.len]

/-- `append` within capacity: the backing array is written in place. -/
theorem gappend_some_pos (st : GStore) (a l : Nat) (x : String)
    (xs : List String) (hc : l + (x :: xs).length ≤ (nthArr st a).length) :
    gappend st (some (a, l)) (x :: xs) =
      (updArr st a (setRange (nthArr st a) l (x :: xs)),
       some (a, l + (x :: xs).length)) := by
  simp only [gappend, GSlice.len]
  rw [if_pos hc]

/-- `append` past capacity: a fresh, grown array at the end of the store. -/
theorem gappend_some_neg (st : GStore) (a l : Nat) (x : String)
    (xs : List String) (hc : ¬ l + (x :: xs).length ≤ (nthArr st a).length) :
    gappend st (some (a, l)) (x :: xs) =
      (st ++ [(nthArr st a).take l ++ x :: xs ++
         List.replicate
           (growCap (nthArr st a).length (l + (x :: xs).length)
             - (l + (x :: xs).length)) ""],
       some (st.length, l + (x :: xs).length)) := by
  simp only [gappend, GSlice.len]
  rw [if_neg hc]

/-- The appended slice reads as the old elements followed by `xs` (both the
in-place and the reallocating branch). -/
theorem gread_gappend (st : GStore) (s : GSlice) (xs : List String)
    (hw : WF st s) :
    gread (gappend st s xs).1 (gappend st s xs).2 = gread st s ++ xs := by
  match xs, s with
  | [], s => simp [gappend]
  | x :: xs', none =>
    rw [gappend_none_cons]
    simp only [gread]
    rw [nth_append_self, List.take_append_of_le_length (by simp),
      List.take_length]
    rfl
  | x :: xs', some (a, l) =>
    obtain ⟨ha, hl⟩ := hw
    by_cases hc : l + (x :: xs').length ≤ (nthArr st a).length
    · rw [gappend_some_pos st a l x xs' hc]
      simp only [gread]
      rw [nth_updArr_self st a _ ha]
      exact take_setRange_full (nthArr st a) l (x :: xs') hc
    · rw [gappend_some_neg st a l x xs' hc]
      simp only [gread]
      rw [nth_append_self,
        List.take_append_of_le_length
          (by simp [List.length_take, Nat.min_eq_left hl]),
        List.take_of_length_le
          (by simp [List.length_take, Nat.min_eq_left hl])]

/-- Appending through one slice leaves every other well-formed slice's view
unchanged, provided the other slice lives in a different array or within the
appended slice's length. -/
theorem gread_gappend_frame (st : GStore) (s : GSlice) (xs : List String)
    (t : GSlice) (ht : WF st t)
    (h : t.aid ≠ s.aid ∨ t.len ≤ s.len) :
    gread (gappend st s xs).1 t = gread st t := by
  match xs, s with
  | [], s => rfl
  | x :: xs', none =>
    cases t with
    | none => rfl
    | some p =>
      obtain ⟨ta, tl⟩ := p
      rw [gappend_none_cons]
      simp only [gread]
      rw [nth_append_lt st _ ta ht.1]
  | x :: xs', some (a, l) =>
    cases t with
    | none => rfl
    | some p =>
      obtain ⟨ta, tl⟩ := p
      by_cases hc : l + (x :: xs').length ≤ (nthArr st a).length
      · rw [gappend_some_pos st a l x xs' hc]
        simp only [gread]
        by_cases hta : ta = a
        · subst hta
          have htl : tl ≤ l := by
            rcases h with h | h
            · simp [GSlice.aid] at h
            · simpa [GSlice.len] using h
          rw [nth_updArr_self st ta _ ht.1]
          exact take_setRange_le (nthArr st ta) l (x :: xs') tl htl
        · rw [nth_updArr_ne st a ta _ (fun hh => hta hh.symm)]
      · rw [gappend_some_neg st a l x xs' hc]
        simp only [gread]
        rw [nth_append_lt st _ ta ht.1]

/-- Appending preserves the well-formedness of every slice of the store. -/
theorem wf_gappend_pres (st : GStore) (s : GSlice) (xs : List String)
    (t : GSlice) (ht : WF st t) : WF (gappend st s xs).1 t := by
  match xs, s with
  | [], s => exact ht
  | x :: xs', none =>
    cases t with
    | none => trivial
    | some p =>
      obtain ⟨ta, tl⟩ := p
      rw [gappend_none_cons]
      refine ⟨by simpa using Nat.lt_succ_of_lt ht.1, ?_⟩
      rw [nth_append_lt st _ ta ht.1]
      exact ht.2
  | x :: xs', some (a, l) =>
    by_cases hc : l + (x :: xs').length ≤ (nthArr st a).length
    · cases t with
      | none => trivial
      | some p =>
        obtain ⟨ta, tl⟩ := p
        rw [gappend_some_pos st a l x xs' hc]
        refine ⟨by rw [length_updArr]; exact ht.1, ?_⟩
        by_cases hta : ta = a
        · subst hta
          rw [nth_updArr_self st ta _ ht.1, length_setRange]
          exact ht.2
        · rw [nth_updArr_ne st a ta _ (fun hh => hta hh.symm)]
          exact ht.2
    · cases t with
      | none => trivial
      | some p =>
        obtain ⟨ta, tl⟩ := p
        rw [gappend_some_neg st a l x xs' hc]
        refine ⟨by simpa using Nat.lt_succ_of_lt ht.1, ?_⟩
        rw [nth_append_lt st _ ta ht.1]
        exact ht.2

/-- The appended slice itself is well formed. -/
theorem wf_gappend_result (st : GStore) (s : GSlice) (xs : List String)
    (hw : WF st s) : WF (gappend st s xs).1 (gappend st s xs).2 := by
  match xs, s with
  | [], s => exact hw
  | x :: xs', none =>
    rw [gappend_none_cons]
    refine ⟨by simp, ?_⟩
    rw [nth_append_self]
    simp
  | x :: xs', some (a, l) =>
    obtain ⟨ha, hl⟩ := hw
    by_cases hc : l + (x :: xs').length ≤ (nthArr st a).length
    · rw [gappend_some_pos st a l x xs' hc]
      refine ⟨by rw [length_updArr]; exact ha, ?_⟩
      rw [nth_updArr_self st a _ ha, length_setRange]
      exact hc
    · rw [gappend_some_neg st a l x xs' hc]
      refine ⟨by simpa using Nat.lt_succ_of_lt ha, ?_⟩
      rw [nth_append_self]
      simp only [List.length_append, List.length_take,
        Nat.min_eq_left hl, List.length_replicate]
      unfold growCap
      split <;> omega

/-- The length of the appended slice covers the old length. -/
theorem gappend_len_ge (st : GStore) (s : GSlice) (xs : List String) :
    s.len ≤ ((gappend st s xs).2).len := by
  match xs, s with
  | [], s => exact Nat.le_refl _
  | x :: xs', none =>
    rw [gappend_none_cons]
    simp [GSlice.len]
  | x :: xs', some (a, l) =>
    by_cases hc : l + (x :: xs').length ≤ (nthArr st a).length
    · rw [gappend_some_pos st a l x xs' hc]
      simp [GSlice.len]
    · rw [gappend_some_neg st a l x xs' hc]
      simp [GSlice.len]

/-! ### `WithField` / `WithCtx` correctness -/

/-- `withCtx` reads back the parent's fields followed by the new ones. -/
theorem withCtx_spec (st : GStore) (p : GSlice) (xs : List String)
    (hw : WF st p) :
    gread (withCtx st p xs).1 (withCtx st p xs).2 = gread st p ++ xs := by
  unfold withCtx cloneCtxs
  by_cases hl : p.len ≠ 0
  · simp only [if_pos hl]
    rw [gread_gappend _ _ _ (wf_gappend_result st none (gread st p) trivial),
      gread_gappend st none (gread st p) trivial]
    simp [gread]
  · simp only [if_neg hl]
    rw [gread_gappend st none xs trivial,
      gread_len_zero st p (by simpa using hl)]
    simp [gread]

/-- Deriving with `withCtx` never disturbs any pre-existing well-formed
slice: the clone writes only into freshly allocated arrays. -/
theorem withCtx_frame (st : GStore) (p : GSlice) (xs : List String)
    (t : GSlice) (ht : WF st t) :
    gread (withCtx st p xs).1 t = gread st t := by
  unfold withCtx cloneCtxs
  by_cases hl : p.len ≠ 0
  · simp only [if_pos hl]
    cases hys : gread st p with
    | nil =>
      simp only [gappend]
      exact gread_gappend_frame st none xs t ht (by cases t <;> simp [GSlice.aid])
    | cons y ys =>
      have h1 : gread (gappend st none (y :: ys)).1 t = gread st t :=
        gread_gappend_frame st none (y :: ys) t ht
          (by cases t <;> simp [GSlice.aid])
      have ht1 : WF (gappend st none (y :: ys)).1 t :=
        wf_gappend_pres st none (y :: ys) t ht
      have h2 : gread (gappend (gappend st none (y :: ys)).1
            (gappend st none (y :: ys)).2 xs).1 t
          = gread (gappend st none (y :: ys)).1 t := by
        refine gread_gappend_frame _ _ _ t ht1 (Or.inl ?_)
        cases t with
        | none => simp [gappend, GSlice.aid]
        | some q =>
          obtain ⟨ta, tl⟩ := q
          simp only [gappend, GSlice.aid]
          intro hh
          have : ta = st.length := by simpa using hh
          exact absurd (this ▸ ht.1) (Nat.lt_irrefl _)
      rw [h2, h1]
  · simp only [if_neg hl]
    exact gread_gappend_frame st none xs t ht (by cases t <;> simp [GSlice.aid])

/-- `withCtx` preserves well-formedness of every slice. -/
theorem withCtx_wf_pres (st : GStore) (p : GSlice) (xs : List String)
    (t : GSlice) (ht : WF st t) : WF (withCtx st p xs).1 t := by
  unfold withCtx cloneCtxs
  by_cases hl : p.len ≠ 0
  · simp only [if_pos hl]
    exact wf_gappend_pres _ _ _ t (wf_gappend_pres st none (gread st p) t ht)
  · simp only [if_neg hl]
    exact wf_gappend_pres st none xs t ht

/-- The slice `withCtx` produces is well formed. -/
theorem withCtx_wf_result (st : GStore) (p : GSlice) (xs : List String) :
    WF (withCtx st p xs).1 (withCtx st p xs).2 := by
  unfold withCtx cloneCtxs
  by_cases hl : p.len ≠ 0
  · simp only [if_pos hl]
    exact wf_gappend_result _ _ _ (wf_gappend_result st none (gread st p) trivial)
  · simp only [if_neg hl]
    exact wf_gappend_result st none xs trivial

/-! ### Claim theorems for the context derivations -/

/-- C3, counterexample: the claim says growing a derived logger's
context-field slice never corrupts the context fields observed by a sibling
derivation, but `Logger.WithField` appends into the parent's backing array
when it has spare capacity.  Building a parent with three context fields
leaves a capacity-4 array (Go doubling growth); two sibling `WithField`
derivations then write the same spare cell in place: the first sibling
observes `d` right after its derivation, and observes `e` — the second
sibling's field — after the second derivation. -/
theorem with_field_sibling_corruption :
    (let w1 := withField [] none ["a1"]
     let w2 := withField w1.1 w1.2 ["a2"]
     let w3 := withField w2.1 w2.2 ["a3"]
     let c1 := withField w3.1 w3.2 ["d"]
     let c2 := withField c1.1 w3.2 ["e"]
     gread c1.1 c1.2 = ["a1", "a2", "a3", "d"] ∧
     gread c2.1 c1.2 = ["a1", "a2", "a3", "e"] ∧ c1.2 = c2.2) :=
  ⟨rfl, rfl, rfl⟩

/-- C3, amended: a chain `child = parent.With a` then `child.With b`
(`WithField` or `WithCtx`) yields a logger that emits the parent's context
fields followed by `a` and `b`, while the parent, re-used afterwards, still
emits exactly its own fields — a derivation writes only at or beyond the
parent's length, or into fresh arrays.  `WithCtx`, whose `Clone` copies the
context slice, additionally never corrupts a sibling derivation; for
`WithField` sibling corruption is possible (see the counterexample). -/
theorem derivations_preserve_parent (st : GStore) (p : GSlice) (a b : String)
    (hw : WF st p) :
    (gread (withField (withField st p [a]).1 (withField st p [a]).2 [b]).1
        (withField (withField st p [a]).1 (withField st p [a]).2 [b]).2
      = gread st p ++ [a, b]) ∧
    (gread (withField (withField st p [a]).1 (withField st p [a]).2 [b]).1 p
      = gread st p) ∧
    (gread (withCtx (withCtx st p [a]).1 (withCtx st p [a]).2 [b]).1
        (withCtx (withCtx st p [a]).1 (withCtx st p [a]).2 [b]).2
      = gread st p ++ [a, b]) ∧
    (gread (withCtx (withCtx st p [a]).1 (withCtx st p [a]).2 [b]).1 p
      = gread st p) ∧
    (∀ (xs ys : List String),
      gread (withCtx (withCtx st p xs).1 p ys).1 (withCtx st p xs).2
        = gread st p ++ xs) := by
  refine ⟨?_, ?_, ?_, ?_, ?_⟩
  · unfold withField
    rw [gread_gappend _ _ _ (wf_gappend_result st p [a] hw),
      gread_gappend st p [a] hw]
    simp
  · unfold withField
    rw [gread_gappend_frame _ _ _ p (wf_gappend_pres st p [a] p hw)
        (Or.inr (gappend_len_ge st p [a])),
      gread_gappend_frame st p [a] p hw (Or.inr (Nat.le_refl _))]
  · rw [withCtx_spec _ _ _ (withCtx_wf_result st p [a]),
      withCtx_spec st p [a] hw]
    simp
  · rw [withCtx_frame _ _ _ p (withCtx_wf_pres st p [a] p hw),
      withCtx_frame st p [a] p hw]
  · intro xs ys
    rw [withCtx_frame _ _ _ _ (withCtx_wf_result st p xs),
      withCtx_spec st p xs hw]

/-- Witness for C3 at the concrete parent `nil` in the empty store. -/
theorem derivations_preserve_parent_witness :
    gread (withField (withField [] none ["a"]).1 (withField [] none ["a"]).2
        ["b"]).1
      (withField (withField [] none ["a"]).1 (withField [] none ["a"]).2
        ["b"]).2 = ["a", "b"] :=
  (derivations_preserve_parent [] none "a" "b" trivial).1

end GoSlice
